import Mathlib

/-
Verification of the COMAU Smart Six 6-1.4 forward-kinematics repository.

The development shallowly embeds:
- the Standard Denavit-Hartenberg forward-kinematics evaluation driven by
  comau_model.py and app.py (the DHRobot / RevoluteDH implementation is
  provided by the roboticstoolbox library and is modelled from the
  specification where noted);
- the robot configuration of comau_model.py;
- the HTTP boundary frame-count normalization of app.py;
- the grid-search calibration loops of debug_dh.py, find_qs_config.py,
  calibrate_a1.py and find_all_configs.py;
- the validation harness of validate_fk.py.

Machine floats of the Python source are modelled by real numbers.
-/

namespace ComauFK

open Real

/-- One revolute link, as configured by the RevoluteDH constructor calls in
comau_model.py: link offset d, link length a, twist alpha, joint-angle
offset, and advisory joint limits qlim. -/
structure Link where
  d : ℝ
  a : ℝ
  alpha : ℝ
  offset : ℝ
  qlim : ℝ × ℝ

/-- A homogeneous 4x4 transform over the reals. -/
abbrev Frame := Matrix (Fin 4) (Fin 4) ℝ

/-- Rotation about the z axis by angle t, as a homogeneous transform. -/
noncomputable def rotZ (t : ℝ) : Frame :=
  !![Real.cos t, -Real.sin t, 0, 0;
     Real.sin t,  Real.cos t, 0, 0;
     0, 0, 1, 0;
     0, 0, 0, 1]

/-- Translation along the z axis by d, as a homogeneous transform. -/
noncomputable def transZ (d : ℝ) : Frame :=
  !![1, 0, 0, 0;
     0, 1, 0, 0;
     0, 0, 1, d;
     0, 0, 0, 1]

/-- Translation along the x axis by a, as a homogeneous transform. -/
noncomputable def transX (a : ℝ) : Frame :=
  !![1, 0, 0, a;
     0, 1, 0, 0;
     0, 0, 1, 0;
     0, 0, 0, 1]

/-- Rotation about the x axis by angle t, as a homogeneous transform. -/
noncomputable def rotX (t : ℝ) : Frame :=
  !![1, 0, 0, 0;
     0, Real.cos t, -Real.sin t, 0;
     0, Real.sin t,  Real.cos t, 0;
     0, 0, 0, 1]

/-- Modelled from the spec: the local Standard-DH transform of one link at
joint value qi, as computed by the RevoluteDH link class of the
roboticstoolbox library (the library itself is not part of the repository
sources).  It is the closed form of the product
rotZ (qi + offset) * transZ d * transX a * rotX alpha. -/
noncomputable def dhA (l : Link) (qi : ℝ) : Frame :=
  !![Real.cos (qi + l.offset), -Real.sin (qi + l.offset) * Real.cos l.alpha,
       Real.sin (qi + l.offset) * Real.sin l.alpha, l.a * Real.cos (qi + l.offset);
     Real.sin (qi + l.offset),  Real.cos (qi + l.offset) * Real.cos l.alpha,
       -Real.cos (qi + l.offset) * Real.sin l.alpha, l.a * Real.sin (qi + l.offset);
     0, Real.sin l.alpha, Real.cos l.alpha, l.d;
     0, 0, 0, 1]

/-- Kinematic evaluation errors surfaced by the engine. -/
inductive KinError where
  | dimensionMismatch
deriving DecidableEq

/-- Modelled from the spec: the fkine_all evaluation of the DHRobot class of
the roboticstoolbox library (the library is not part of the repository
sources): given a base frame, the chain links and a joint vector of matching
length, it returns the base frame followed by the cumulative world
transforms of every link output frame; on a length mismatch it fails with a
dimension-mismatch error. -/
noncomputable def fkine_all (base : Frame) (links : List Link) (q : List ℝ) :
    Except KinError (List Frame) :=
  if q.length = links.length then
    .ok (List.scanl (fun T lq => T * dhA lq.1 lq.2) base (links.zip q))
  else
    .error .dimensionMismatch

/-- Modelled from the spec: the fkine evaluation of the DHRobot class of the
roboticstoolbox library, returning only the end-effector world transform. -/
noncomputable def fkine (base : Frame) (links : List Link) (q : List ℝ) :
    Except KinError Frame :=
  if q.length = links.length then
    .ok (List.foldl (fun T lq => T * dhA lq.1 lq.2) base (links.zip q))
  else
    .error .dimensionMismatch

/-- The end-effector transform as a total function of chain and joint
vector, used at call sites of the repository scripts where the joint vector
always has the chain dimension. -/
noncomputable def fkineT (links : List Link) (q : List ℝ) : Frame :=
  List.foldl (fun T lq => T * dhA lq.1 lq.2) 1 (links.zip q)

/-- Joint 1 of comau_model.py: d=0.45, a=0.101, alpha=pi/2, offset 0. -/
noncomputable def link1 : Link :=
  ⟨0.45, 0.101, π / 2, 0, (-(170 * π / 180), 170 * π / 180)⟩

/-- Joint 2 of comau_model.py: d=0, a=0.59, alpha=0, offset pi/2. -/
noncomputable def link2 : Link :=
  ⟨0, 0.59, 0, π / 2, (-(85 * π / 180), 155 * π / 180)⟩

/-- Joint 3 of comau_model.py: d=0, a=0.13, alpha=pi/2, offset 0. -/
noncomputable def link3 : Link :=
  ⟨0, 0.13, π / 2, 0, (-(170 * π / 180), 158 * π / 180)⟩

/-- Joint 4 of comau_model.py: d=0.674, a=0, alpha=-pi/2, offset 0. -/
noncomputable def link4 : Link :=
  ⟨0.674, 0, -(π / 2), 0, (-(270 * π / 180), 270 * π / 180)⟩

/-- Joint 5 of comau_model.py: d=0, a=0, alpha=pi/2, offset 0. -/
noncomputable def link5 : Link :=
  ⟨0, 0, π / 2, 0, (-(130 * π / 180), 130 * π / 180)⟩

/-- Joint 6 of comau_model.py: d=0.095, a=0, alpha=0, offset 0. -/
noncomputable def link6 : Link :=
  ⟨0.095, 0, 0, 0, (-(270 * π / 180), 270 * π / 180)⟩

/-- The six-link COMAU Smart Six chain created by create_comau_robot in
comau_model.py, in link order. -/
noncomputable def comauLinks : List Link :=
  [link1, link2, link3, link4, link5, link6]

/-- The frame-list normalization performed at the HTTP boundary by the
fkine route of app.py: a serialized list longer than 7 entries is truncated
to its first 7, a list shorter than 7 entries gets exactly one identity
base frame prepended, and a 7-entry list is passed through unchanged. -/
noncomputable def normalize_transforms (ts : List Frame) : List Frame :=
  if 7 < ts.length then ts.take 7
  else if ts.length < 7 then (1 : Frame) :: ts
  else ts

/-- Modelled from the spec: the per-index joint-limit-violation flags of
strict-mode evaluation; index i is flagged exactly when q i falls outside
the advisory qlim interval of link i.  No repository code implements strict
mode: comau_model.py stores qlim as advisory metadata that the transform
math never reads. -/
def jointLimitFlags (links : List Link) (q : List ℝ) : List Prop :=
  (links.zip q).map fun lq => lq.2 < lq.1.qlim.1 ∨ lq.1.qlim.2 < lq.2

/-- Modelled from the spec: strict-mode evaluation annotates the numeric
result with the joint-limit flags; it never clamps a joint value and never
fails because of a limit violation. -/
noncomputable def evaluateStrict (base : Frame) (links : List Link) (q : List ℝ) :
    Except KinError (List Frame × List Prop) :=
  match fkine_all base links q with
  | .ok fs => .ok (fs, jointLimitFlags links q)
  | .error e => .error e

/-- One update of the running best of the calibration grid-search scripts:
the first candidate is always taken (the scripts start from an infinite
best error, modelled by the none state), and afterwards a candidate
replaces the running best exactly when its error is strictly smaller. -/
def searchStep {α β : Type} [LinearOrder β] (f : α → β) (acc : Option (α × β)) (x : α) :
    Option (α × β) :=
  match acc with
  | none => some (x, f x)
  | some (b, e) => if f x < e then some (x, f x) else some (b, e)

/-- The minimum-tracking loop of the calibration scripts over an enumerated
candidate list, with error function f. -/
def searchFold {α β : Type} [LinearOrder β] (f : α → β) (init : Option (α × β))
    (xs : List α) : Option (α × β) :=
  xs.foldl (searchStep f) init

/-- The two-phase search of find_qn_configuration in debug_dh.py: the
coarse grid enumeration tracks the running minimum from an infinite
starting error; the refinement phase re-centers an enumeration on the
coarse best point and continues the same minimum tracking, carrying the
coarse best and its error as the running best. -/
def twoPhase {α β : Type} [LinearOrder β] (f : α → β) (coarse : List α)
    (refined : α → List α) : Option (α × β) :=
  match searchFold f none coarse with
  | none => none
  | some (b, e) => searchFold f (some (b, e)) (refined b)

/-- Python range(start, stop, step) for a positive step, as used by the
calibration scripts. -/
def pyRange (start stop step : ℤ) : List ℤ :=
  (List.range ((stop - start + step - 1) / step).toNat).map fun i => start + (i : ℤ) * step

/-- The candidate enumeration of find_qs_configuration in find_qs_config.py:
q2 sweeps range(-90, 181, 15) in the outer loop and q3 sweeps
range(-90, 91, 15) in the inner loop, nested in exactly this order. -/
def qsCandidates : List (ℤ × ℤ) :=
  (pyRange (-90) 181 15).flatMap fun q2 => (pyRange (-90) 91 15).map fun q3 => (q2, q3)

/-- Modelled from the spec: the typed failure of the calibration search on
an empty or malformed free-dimension range.  No repository script
implements range validation: all script search ranges are well-formed
literals, so the failure policy exists only in the specification. -/
inductive InvalidSearchRangeError where
  | invalidRange
deriving DecidableEq

/-- Modelled from the spec: one free search dimension with an inclusive
range from lo to hi and a step size. -/
structure SearchDim where
  lo : ℚ
  hi : ℚ
  step : ℚ

/-- Modelled from the spec: a dimension is empty or malformed when its
minimum exceeds its maximum or its step is not positive. -/
def dimMalformed (d : SearchDim) : Prop := d.hi < d.lo ∨ d.step ≤ 0

instance : DecidablePred dimMalformed := fun d => by
  unfold dimMalformed
  infer_instance

/-- Modelled from the spec: the inclusive enumeration of one search
dimension at its step size. -/
def enumDim (d : SearchDim) : List ℚ :=
  (List.range (⌊(d.hi - d.lo) / d.step⌋.toNat + 1)).map fun i => d.lo + (i : ℚ) * d.step

/-- Modelled from the spec: the K-dimensional Cartesian product of the
per-dimension enumerations, nested outermost-to-innermost in the
configured dimension order. -/
def gridPoints (dims : List SearchDim) : List (List ℚ) :=
  dims.foldr (fun d acc => (enumDim d).flatMap fun v => acc.map fun rest => v :: rest) [[]]

/-- Modelled from the spec: the calibration search validates every
free-dimension range before evaluating any candidate, failing with
InvalidSearchRangeError on a malformed range, and otherwise returns the
best grid point with its residual error from the minimum-tracking loop. -/
def calibrationSearch {β : Type} [LinearOrder β] (dims : List SearchDim)
    (f : List ℚ → β) : Except InvalidSearchRangeError (List ℚ × β) :=
  if ∃ d ∈ dims, dimMalformed d then .error .invalidRange
  else
    match searchFold f none (gridPoints dims) with
    | some be => .ok be
    | none => .error .invalidRange

/-- One validation case of validate_model in validate_fk.py: a joint
vector and the reference end-effector position from the paper. -/
structure TestCase where
  q : List ℝ
  ref_pos : Fin 3 → ℝ

/-- The translation component of a homogeneous transform, the t attribute
of an SE3 value. -/
noncomputable def transl (T : Frame) : Fin 3 → ℝ := fun i => T i.castSucc 3

/-- The Euclidean position error np.linalg.norm(calc_pos - ref_pos) of the
repository scripts. -/
noncomputable def posError (p r : Fin 3 → ℝ) : ℝ :=
  Real.sqrt ((p 0 - r 0) ^ 2 + (p 1 - r 1) ^ 2 + (p 2 - r 2) ^ 2)

/-- The fixed 50mm tolerance of validate_model in validate_fk.py. -/
noncomputable def tolerance : ℝ := 0.05

/-- The position error of one validation case, computed by running the
engine on the case joint vector. -/
noncomputable def caseError (links : List Link) (c : TestCase) : ℝ :=
  posError (transl (fkineT links c.q)) c.ref_pos

/-- A case passes exactly when its error is at most the tolerance, as in
the status line of validate_model. -/
def casePasses (links : List Link) (c : TestCase) : Prop :=
  caseError links c ≤ tolerance

/-- The per-case report rows of validate_model: one entry per case in case
order, with the case error and pass verdict. -/
noncomputable def validationReport (links : List Link) (cases : List TestCase) :
    List (ℝ × Prop) :=
  cases.map fun c => (caseError links c, casePasses links c)

/-- The final all_passed flag of validate_model: it starts true and is
cleared exactly by a case whose error strictly exceeds the tolerance, so
it holds exactly when every case passes. -/
def allPassed (links : List Link) (cases : List TestCase) : Prop :=
  ∀ c ∈ cases, casePasses links c

/-- The home test case q_z of validate_fk.py: all joints at zero against
reference position [0.87, 0, 1.17]. -/
noncomputable def caseHome : TestCase := ⟨[0, 0, 0, 0, 0, 0], ![0.87, 0, 1.17]⟩

/-- A deliberately failing case: the home joint vector against the origin
as reference. -/
noncomputable def caseOrigin : TestCase := ⟨[0, 0, 0, 0, 0, 0], ![0, 0, 0]⟩

/-- A case whose error is exactly the 50mm tolerance: the home joint
vector against a reference displaced by 0.05 along x. -/
noncomputable def caseBoundary : TestCase := ⟨[0, 0, 0, 0, 0, 0], ![0.92, 0, 1.17]⟩

set_option maxHeartbeats 1000000 in
/-- Product of the two translation factors of the DH convention. -/
lemma transZ_mul_transX (d a : ℝ) :
    transZ d * transX a =
      !![1, 0, 0, a;
         0, 1, 0, 0;
         0, 0, 1, d;
         0, 0, 0, 1] := by
  ext i j
  fin_cases i <;> fin_cases j <;>
    simp [transZ, transX, Matrix.mul_apply, Fin.sum_univ_four,
      Matrix.vecHead, Matrix.vecTail]

set_option maxHeartbeats 1000000 in
/-- Product of the translation factors with the x-axis rotation factor. -/
lemma transZX_mul_rotX (d a t : ℝ) :
    (!![1, 0, 0, a;
        0, 1, 0, 0;
        0, 0, 1, d;
        0, 0, 0, 1] : Frame) * rotX t =
      !![1, 0, 0, a;
         0, Real.cos t, -Real.sin t, 0;
         0, Real.sin t,  Real.cos t, d;
         0, 0, 0, 1] := by
  ext i j
  fin_cases i <;> fin_cases j <;>
    simp [rotX, Matrix.mul_apply, Fin.sum_univ_four,
      Matrix.vecHead, Matrix.vecTail]

set_option maxHeartbeats 1000000 in
/-- Product of the z-axis rotation factor with the remaining factors. -/
lemma rotZ_mul_rest (s d a t : ℝ) :
    rotZ s * (!![1, 0, 0, a;
                 0, Real.cos t, -Real.sin t, 0;
                 0, Real.sin t,  Real.cos t, d;
                 0, 0, 0, 1] : Frame) =
      !![Real.cos s, -Real.sin s * Real.cos t,  Real.sin s * Real.sin t, a * Real.cos s;
         Real.sin s,  Real.cos s * Real.cos t, -Real.cos s * Real.sin t, a * Real.sin s;
         0, Real.sin t, Real.cos t, d;
         0, 0, 0, 1] := by
  ext i j
  fin_cases i <;> fin_cases j <;>
    simp [rotZ, Matrix.mul_apply, Fin.sum_univ_four,
      Matrix.vecHead, Matrix.vecTail] <;>
    ring

/-- The local DH transform is exactly the Standard-DH elementary product:
rotate about z, translate along z, translate along x, rotate about x. -/
theorem dhA_eq_elementary (l : Link) (qi : ℝ) :
    dhA l qi = rotZ (qi + l.offset) * transZ l.d * transX l.a * rotX l.alpha := by
  rw [mul_assoc (rotZ (qi + l.offset)), transZ_mul_transX, mul_assoc,
    transZX_mul_rotX, rotZ_mul_rest, dhA]

/-- Entry i of a scanl is the fold of the operation over the first i list
elements. -/
lemma scanl_get_eq_foldl_take {α β : Type} (op : α → β → α) :
    ∀ (l : List β) (b : α) (i : ℕ) (hi : i < (List.scanl op b l).length),
      (List.scanl op b l).get ⟨i, hi⟩ = List.foldl op b (List.take i l) := by
  intro l
  induction l with
  | nil =>
    intro b i hi
    simp only [List.scanl, List.length_cons, List.length_nil] at hi
    obtain rfl : i = 0 := Nat.lt_one_iff.mp hi
    simp [List.scanl]
  | cons x xs ih =>
    intro b i hi
    cases i with
    | zero => simp [List.scanl]
    | succ n =>
      simp only [List.scanl, List.length_cons] at hi ⊢
      rw [List.get_cons_succ, ih (op b x) n (by simpa using hi)]
      simp

/-- Claim C1: for every chain and joint vector of matching length, the
engine builds each local transform as the Standard-DH product
rotZ (q i + offset) * transZ d * transX a * rotX alpha, and the world
transform of the output frame of link i equals the base frame multiplied by
the local transforms of links 1..i, in exactly link order. -/
theorem fkine_all_standard_dh (base : Frame) (links : List Link) (q : List ℝ)
    (h : q.length = links.length) :
    (∀ (l : Link) (qi : ℝ),
        dhA l qi = rotZ (qi + l.offset) * transZ l.d * transX l.a * rotX l.alpha) ∧
    ∃ fs, fkine_all base links q = .ok fs ∧
      fs.length = q.length + 1 ∧
      ∀ (i : ℕ) (hi : i < fs.length),
        fs.get ⟨i, hi⟩ =
          List.foldl (fun T lq => T * dhA lq.1 lq.2) base
            (List.take i (links.zip q)) := by
  refine ⟨dhA_eq_elementary, List.scanl (fun T lq => T * dhA lq.1 lq.2) base (links.zip q),
    ?_, ?_, ?_⟩
  · simp [fkine_all, h]
  · simp [List.length_scanl, List.length_zip, h]
  · exact fun i hi => scanl_get_eq_foldl_take _ (links.zip q) base i hi

/-- Spot check of the previous theorem on the configured chain at the home
joint vector. -/
theorem fkine_all_standard_dh_witness :
    (∀ (l : Link) (qi : ℝ),
        dhA l qi = rotZ (qi + l.offset) * transZ l.d * transX l.a * rotX l.alpha) ∧
    ∃ fs, fkine_all 1 comauLinks [0, 0, 0, 0, 0, 0] = .ok fs ∧
      fs.length = ([0, 0, 0, 0, 0, 0] : List ℝ).length + 1 ∧
      ∀ (i : ℕ) (hi : i < fs.length),
        fs.get ⟨i, hi⟩ =
          List.foldl (fun T lq => T * dhA lq.1 lq.2) 1
            (List.take i (comauLinks.zip [0, 0, 0, 0, 0, 0])) :=
  fkine_all_standard_dh 1 comauLinks [0, 0, 0, 0, 0, 0] rfl

/-- Claim C2: for a matching-length joint vector the engine itself produces
exactly N+1 frames whose first frame is the identity base frame, and the
boundary layer of app.py prepends one identity frame to a short list and
truncates a long list to its first 7 entries, leaving an exact-length list
unchanged; the normalization lives only at the boundary. -/
theorem frame_count_engine_and_boundary :
    (∀ (links : List Link) (q : List ℝ), q.length = links.length →
      ∃ fs, fkine_all 1 links q = .ok fs ∧ fs.length = q.length + 1 ∧
        fs.head? = some 1) ∧
    (∀ ts : List Frame, ts.length < 7 → normalize_transforms ts = (1 : Frame) :: ts) ∧
    (∀ ts : List Frame, 7 < ts.length → normalize_transforms ts = ts.take 7) ∧
    (∀ ts : List Frame, ts.length = 7 → normalize_transforms ts = ts) := by
  have hhead : ∀ (l : List (Link × ℝ)) (b : Frame),
      (List.scanl (fun T lq => T * dhA lq.1 lq.2) b l).head? = some b := by
    intro l b
    cases l <;> simp [List.scanl]
  refine ⟨?_, ?_, ?_, ?_⟩
  · intro links q h
    refine ⟨List.scanl (fun T lq => T * dhA lq.1 lq.2) 1 (links.zip q), ?_, ?_, ?_⟩
    · unfold fkine_all
      rw [if_pos h]
    · rw [List.length_scanl, List.length_zip, h, min_self]
    · exact hhead _ _
  · intro ts h
    have h7 : ¬ 7 < ts.length := by omega
    simp [normalize_transforms, h, h7]
  · intro ts h
    simp [normalize_transforms, h]
  · intro ts h
    simp [normalize_transforms, h]

set_option maxHeartbeats 1000000 in
/-- Spot check of the previous theorem: the configured chain at home, the
empty list, an 8-entry list and a 7-entry list. -/
theorem frame_count_engine_and_boundary_witness :
    (∃ fs, fkine_all 1 comauLinks [0, 0, 0, 0, 0, 0] = .ok fs ∧
        fs.length = ([0, 0, 0, 0, 0, 0] : List ℝ).length + 1 ∧ fs.head? = some 1) ∧
    normalize_transforms ([] : List Frame) = [(1 : Frame)] ∧
    normalize_transforms (List.replicate 8 (1 : Frame)) =
      (List.replicate 8 (1 : Frame)).take 7 ∧
    normalize_transforms (List.replicate 7 (1 : Frame)) = List.replicate 7 (1 : Frame) :=
  ⟨frame_count_engine_and_boundary.1 comauLinks [0, 0, 0, 0, 0, 0] rfl,
   frame_count_engine_and_boundary.2.1 [] (by simp),
   frame_count_engine_and_boundary.2.2.1 _ (by simp),
   frame_count_engine_and_boundary.2.2.2 _ (by simp)⟩

/-- Claim C7: evaluation fails with the dimension-mismatch error for every
joint vector whose length differs from the number of links, both strictly
shorter and strictly longer vectors included. -/
theorem fkine_all_dimension_mismatch (base : Frame) (links : List Link) (q : List ℝ)
    (h : q.length ≠ links.length) :
    fkine_all base links q = .error .dimensionMismatch ∧
    fkine base links q = .error .dimensionMismatch := by
  constructor <;> simp [fkine_all, fkine, h]

/-- Spot check: a 1-vector and a 7-vector against the 6-link chain. -/
theorem fkine_all_dimension_mismatch_witness :
    (fkine_all 1 comauLinks [0] = .error .dimensionMismatch ∧
      fkine 1 comauLinks [0] = .error .dimensionMismatch) ∧
    (fkine_all 1 comauLinks [0, 0, 0, 0, 0, 0, 0] = .error .dimensionMismatch ∧
      fkine 1 comauLinks [0, 0, 0, 0, 0, 0, 0] = .error .dimensionMismatch) :=
  ⟨fkine_all_dimension_mismatch 1 comauLinks [0] (by simp [comauLinks]),
   fkine_all_dimension_mismatch 1 comauLinks [0, 0, 0, 0, 0, 0, 0] (by simp [comauLinks])⟩

/-- Claim C9: under strict mode an out-of-limit joint value neither fails
evaluation nor is clamped: the frames are exactly those of plain
evaluation, and the result carries one advisory flag per index that holds
precisely when the joint value lies outside the qlim interval of its link. -/
theorem evaluateStrict_advisory (base : Frame) (links : List Link) (q : List ℝ)
    (h : q.length = links.length) :
    ∃ fs, fkine_all base links q = .ok fs ∧
      evaluateStrict base links q = .ok (fs, jointLimitFlags links q) ∧
      (jointLimitFlags links q).length = q.length ∧
      ∀ (i : ℕ) (h1 : i < links.length) (h2 : i < q.length)
        (h3 : i < (jointLimitFlags links q).length),
        ((jointLimitFlags links q).get ⟨i, h3⟩ ↔
          (q.get ⟨i, h2⟩ < (links.get ⟨i, h1⟩).qlim.1 ∨
            (links.get ⟨i, h1⟩).qlim.2 < q.get ⟨i, h2⟩)) := by
  refine ⟨List.scanl (fun T lq => T * dhA lq.1 lq.2) base (links.zip q), ?_, ?_, ?_, ?_⟩
  · simp [fkine_all, h]
  · simp [evaluateStrict, fkine_all, h]
  · simp [jointLimitFlags, List.length_zip, h]
  · intro i h1 h2 h3
    simp [jointLimitFlags, List.get_eq_getElem, List.getElem_map, List.getElem_zip]

/-- Spot check of strict mode on the configured chain with a first joint
value far outside its limits. -/
theorem evaluateStrict_advisory_witness :
    ∃ fs, fkine_all 1 comauLinks [10, 0, 0, 0, 0, 0] = .ok fs ∧
      evaluateStrict 1 comauLinks [10, 0, 0, 0, 0, 0] =
        .ok (fs, jointLimitFlags comauLinks [10, 0, 0, 0, 0, 0]) ∧
      (jointLimitFlags comauLinks [10, 0, 0, 0, 0, 0]).length =
        ([10, 0, 0, 0, 0, 0] : List ℝ).length ∧
      ∀ (i : ℕ) (h1 : i < comauLinks.length)
        (h2 : i < ([10, 0, 0, 0, 0, 0] : List ℝ).length)
        (h3 : i < (jointLimitFlags comauLinks [10, 0, 0, 0, 0, 0]).length),
        ((jointLimitFlags comauLinks [10, 0, 0, 0, 0, 0]).get ⟨i, h3⟩ ↔
          (([10, 0, 0, 0, 0, 0] : List ℝ).get ⟨i, h2⟩ < (comauLinks.get ⟨i, h1⟩).qlim.1 ∨
            (comauLinks.get ⟨i, h1⟩).qlim.2 < ([10, 0, 0, 0, 0, 0] : List ℝ).get ⟨i, h2⟩)) :=
  evaluateStrict_advisory 1 comauLinks [10, 0, 0, 0, 0, 0] rfl

/-- Invariant of the minimum-tracking loop started from a previous best
candidate carrying its own error: the loop returns the running minimum,
keeps the previous best exactly when no candidate is strictly better, and
any new winner is the first candidate in enumeration order attaining the
final error. -/
lemma searchFold_invariant {α β : Type} [LinearOrder β] (f : α → β) :
    ∀ (xs : List α) (b0 : α) (e0 : β), f b0 = e0 →
      ∃ b e, searchFold f (some (b0, e0)) xs = some (b, e) ∧
        f b = e ∧ e ≤ e0 ∧ (∀ x ∈ xs, e ≤ f x) ∧
        ((∀ x ∈ xs, e0 ≤ f x) → (b, e) = (b0, e0)) ∧
        ((b, e) = (b0, e0) ∨
          ∃ l1 l2, xs = l1 ++ b :: l2 ∧ e < e0 ∧ ∀ x ∈ l1, e < f x) := by
  intro xs
  induction xs with
  | nil =>
    intro b0 e0 hb0
    exact ⟨b0, e0, rfl, hb0, le_refl _, by simp, fun _ => rfl, Or.inl rfl⟩
  | cons x rest ih =>
    intro b0 e0 hb0
    by_cases hx : f x < e0
    · have step : searchFold f (some (b0, e0)) (x :: rest) =
          searchFold f (some (x, f x)) rest := by
        simp [searchFold, searchStep, hx]
      obtain ⟨b, e, hr, hfb, hle, hmin, _, hcase⟩ := ih x (f x) rfl
      refine ⟨b, e, step.trans hr, hfb, le_of_lt (lt_of_le_of_lt hle hx), ?_, ?_, ?_⟩
      · intro y hy
        rcases List.mem_cons.mp hy with rfl | hy
        · exact hle
        · exact hmin y hy
      · intro hall
        exact absurd (hall x (List.mem_cons_self x rest)) (not_le.mpr hx)
      · refine Or.inr ?_
        rcases hcase with heq | ⟨l1, l2, hsplit, hlt, hall⟩
        · obtain ⟨hb, he⟩ := Prod.mk.injEq .. ▸ heq
          subst hb
          exact ⟨[], rest, by simp, he ▸ hx, by simp⟩
        · refine ⟨x :: l1, l2, by rw [hsplit]; rfl, lt_trans hlt hx, ?_⟩
          intro y hy
          rcases List.mem_cons.mp hy with rfl | hy
          · exact hlt
          · exact hall y hy
    · have hx' : e0 ≤ f x := not_lt.mp hx
      have step : searchFold f (some (b0, e0)) (x :: rest) =
          searchFold f (some (b0, e0)) rest := by
        simp [searchFold, searchStep, hx]
      obtain ⟨b, e, hr, hfb, hle, hmin, hkeep, hcase⟩ := ih b0 e0 hb0
      refine ⟨b, e, step.trans hr, hfb, hle, ?_, ?_, ?_⟩
      · intro y hy
        rcases List.mem_cons.mp hy with rfl | hy
        · exact le_trans hle hx'
        · exact hmin y hy
      · intro hall
        exact hkeep fun y hy => hall y (List.mem_cons_of_mem x hy)
      · rcases hcase with heq | ⟨l1, l2, hsplit, hlt, hall⟩
        · exact Or.inl heq
        · refine Or.inr ⟨x :: l1, l2, by rw [hsplit]; rfl, hlt, ?_⟩
          intro y hy
          rcases List.mem_cons.mp hy with rfl | hy
          · exact lt_of_lt_of_le hlt hx'
          · exact hall y hy

/-- The loop started with no previous best returns the first-encountered
minimum of the candidate list. -/
lemma searchFold_none_spec {α β : Type} [LinearOrder β] (f : α → β) (xs : List α)
    (h : xs ≠ []) :
    ∃ b e, searchFold f none xs = some (b, e) ∧ f b = e ∧
      (∀ x ∈ xs, e ≤ f x) ∧
      ∃ l1 l2, xs = l1 ++ b :: l2 ∧ ∀ x ∈ l1, e < f x := by
  cases xs with
  | nil => exact absurd rfl h
  | cons x rest =>
    have step : searchFold f none (x :: rest) = searchFold f (some (x, f x)) rest := rfl
    obtain ⟨b, e, hr, hfb, hle, hmin, _, hcase⟩ := searchFold_invariant f rest x (f x) rfl
    refine ⟨b, e, step.trans hr, hfb, ?_, ?_⟩
    · intro y hy
      rcases List.mem_cons.mp hy with rfl | hy
      · exact hle
      · exact hmin y hy
    · rcases hcase with heq | ⟨l1, l2, hsplit, hlt, hall⟩
      · obtain ⟨hb, _⟩ := Prod.mk.injEq .. ▸ heq
        subst hb
        exact ⟨[], rest, rfl, by simp⟩
      · refine ⟨x :: l1, l2, by rw [hsplit]; rfl, ?_⟩
        intro y hy
        rcases List.mem_cons.mp hy with rfl | hy
        · exact hlt
        · exact hall y hy

/-- Claim C4: with both phases configured, the two-phase search returns the
single minimum-error candidate over the coarse enumeration and the
refinement enumeration centered on the coarse best, combined; the
refinement result replaces the coarse result exactly when some refinement
candidate has strictly smaller error, and otherwise the coarse result
stands. -/
theorem two_phase_global_min {α β : Type} [LinearOrder β] (f : α → β)
    (coarse : List α) (refined : α → List α) (h : coarse ≠ []) :
    ∃ b1 e1 b e, searchFold f none coarse = some (b1, e1) ∧
      twoPhase f coarse refined = some (b, e) ∧
      f b = e ∧ b ∈ coarse ++ refined b1 ∧
      (∀ x ∈ coarse ++ refined b1, e ≤ f x) ∧
      ((∀ x ∈ refined b1, e1 ≤ f x) → (b, e) = (b1, e1)) ∧
      ((∃ x ∈ refined b1, f x < e1) → e < e1 ∧ b ∈ refined b1) := by
  obtain ⟨b1, e1, h1, hfb1, hmin1, l1, l2, hsp, _⟩ := searchFold_none_spec f coarse h
  have hb1mem : b1 ∈ coarse := by
    rw [hsp]
    exact List.mem_append_right l1 (List.mem_cons_self b1 l2)
  obtain ⟨b, e, hr, hfb, hle, hmin, hkeep, hcase⟩ :=
    searchFold_invariant f (refined b1) b1 e1 hfb1
  have ht : twoPhase f coarse refined = some (b, e) := by
    rw [twoPhase, h1]
    exact hr
  refine ⟨b1, e1, b, e, h1, ht, hfb, ?_, ?_, hkeep, ?_⟩
  · rcases hcase with heq | ⟨m1, m2, hsplit, _, _⟩
    · obtain ⟨hb, _⟩ := Prod.mk.injEq .. ▸ heq
      subst hb
      exact List.mem_append_left _ hb1mem
    · refine List.mem_append_right _ ?_
      rw [hsplit]
      exact List.mem_append_right m1 (List.mem_cons_self b m2)
  · intro y hy
    rcases List.mem_append.mp hy with hy | hy
    · exact le_trans hle (hmin1 y hy)
    · exact hmin y hy
  · rintro ⟨x, hx, hlt⟩
    have hlt' : e < e1 := lt_of_le_of_lt (hmin x hx) hlt
    rcases hcase with heq | ⟨m1, m2, hsplit, _, _⟩
    · obtain ⟨_, he⟩ := Prod.mk.injEq .. ▸ heq
      exact absurd he (ne_of_lt hlt')
    · refine ⟨hlt', ?_⟩
      rw [hsplit]
      exact List.mem_append_right m1 (List.mem_cons_self b m2)

/-- Spot check of the two-phase search over rational errors with the
identity error function, a two-point coarse grid and a one-point
refinement neighborhood. -/
theorem two_phase_global_min_witness :
    ∃ b1 e1 b e, searchFold (fun x : ℚ => x) none [2, 1] = some (b1, e1) ∧
      twoPhase (fun x : ℚ => x) [2, 1] (fun c => [c + 1]) = some (b, e) ∧
      (fun x : ℚ => x) b = e ∧ b ∈ [2, 1] ++ [b1 + 1] ∧
      (∀ x ∈ [2, 1] ++ [b1 + 1], e ≤ (fun x : ℚ => x) x) ∧
      ((∀ x ∈ [b1 + 1], e1 ≤ (fun x : ℚ => x) x) → (b, e) = (b1, e1)) ∧
      ((∃ x ∈ [b1 + 1], (fun x : ℚ => x) x < e1) → e < e1 ∧ b ∈ [b1 + 1]) :=
  two_phase_global_min (fun x : ℚ => x) [2, 1] (fun c => [c + 1]) (by simp)

/-- Claim C5: over the Cartesian-product enumeration of
find_qs_configuration (outer q2, inner q3), the minimum-tracking search
returns the first-encountered minimum for every error function: the winner
attains the minimum error and every candidate enumerated before it has a
strictly larger error, so the result is a deterministic function of the
enumeration and the error function. -/
theorem qs_search_first_encountered_min {β : Type} [LinearOrder β] (f : ℤ × ℤ → β) :
    ∃ b e, searchFold f none qsCandidates = some (b, e) ∧ f b = e ∧
      (∀ x ∈ qsCandidates, e ≤ f x) ∧
      ∃ l1 l2, qsCandidates = l1 ++ b :: l2 ∧ ∀ x ∈ l1, e < f x :=
  searchFold_none_spec f qsCandidates (by decide)

/-- Spot check of the previous theorem at a concrete rational error
function. -/
theorem qs_search_first_encountered_min_witness :
    ∃ b e, searchFold (fun p : ℤ × ℤ => (p.1 * p.1 + p.2 * p.2 : ℚ)) none qsCandidates =
        some (b, e) ∧
      (fun p : ℤ × ℤ => (p.1 * p.1 + p.2 * p.2 : ℚ)) b = e ∧
      (∀ x ∈ qsCandidates, e ≤ (fun p : ℤ × ℤ => (p.1 * p.1 + p.2 * p.2 : ℚ)) x) ∧
      ∃ l1 l2, qsCandidates = l1 ++ b :: l2 ∧
        ∀ x ∈ l1, e < (fun p : ℤ × ℤ => (p.1 * p.1 + p.2 * p.2 : ℚ)) x :=
  qs_search_first_encountered_min fun p : ℤ × ℤ => (p.1 * p.1 + p.2 * p.2 : ℚ)

/-- Each dimension enumeration holds at least its range minimum. -/
lemma enumDim_ne_nil (d : SearchDim) : enumDim d ≠ [] := by
  simp [enumDim, List.range_succ]

/-- The grid of candidate points is never empty. -/
lemma gridPoints_ne_nil : ∀ dims : List SearchDim, gridPoints dims ≠ [] := by
  intro dims
  induction dims with
  | nil => simp [gridPoints]
  | cons d ds ih =>
    obtain ⟨v, tl, hv⟩ := List.exists_cons_of_ne_nil (enumDim_ne_nil d)
    obtain ⟨r, tr, hr⟩ := List.exists_cons_of_ne_nil ih
    have : gridPoints (d :: ds) =
        (enumDim d).flatMap fun v => (gridPoints ds).map fun rest => v :: rest := rfl
    rw [this, hv, hr]
    simp

/-- Claim C6: the calibration search fails with InvalidSearchRangeError,
independently of the error function and hence before any forward-kinematics
evaluation, exactly when some free-dimension range is empty or malformed
(minimum above maximum, or non-positive step); on every well-formed input
it never fails and returns the best grid point together with its residual
error, even when no candidate meets any tolerance. -/
theorem calibration_search_range_validation {β : Type} [LinearOrder β]
    (dims : List SearchDim) (f : List ℚ → β) :
    ((∃ d ∈ dims, dimMalformed d) →
      ∀ g : List ℚ → β, calibrationSearch dims g = .error .invalidRange) ∧
    ((∀ d ∈ dims, ¬ dimMalformed d) →
      ∃ b e, calibrationSearch dims f = .ok (b, e) ∧ f b = e ∧
        b ∈ gridPoints dims ∧ ∀ x ∈ gridPoints dims, e ≤ f x) := by
  constructor
  · intro hmal g
    unfold calibrationSearch
    rw [if_pos hmal]
  · intro hwf
    have hnot : ¬ ∃ d ∈ dims, dimMalformed d := by
      rintro ⟨d, hd, hm⟩
      exact hwf d hd hm
    obtain ⟨b, e, hr, hfb, hmin, l1, l2, hsp, _⟩ :=
      searchFold_none_spec f (gridPoints dims) (gridPoints_ne_nil dims)
    refine ⟨b, e, ?_, hfb, ?_, hmin⟩
    · unfold calibrationSearch
      rw [if_neg hnot, hr]
    · rw [hsp]
      exact List.mem_append_right l1 (List.mem_cons_self b l2)

/-- Spot check: a reversed range fails regardless of the error function,
and a well-formed one-dimensional search returns its best point. -/
theorem calibration_search_range_validation_witness :
    calibrationSearch [SearchDim.mk 1 0 1] (fun _ : List ℚ => (0 : ℚ)) =
      .error .invalidRange ∧
    ∃ b e, calibrationSearch [SearchDim.mk 0 2 1] (fun l => l.headD 0) = .ok (b, e) ∧
      (fun l : List ℚ => l.headD 0) b = e ∧
      b ∈ gridPoints [SearchDim.mk 0 2 1] ∧
      ∀ x ∈ gridPoints [SearchDim.mk 0 2 1], e ≤ (fun l : List ℚ => l.headD 0) x :=
  ⟨(calibration_search_range_validation [SearchDim.mk 1 0 1]
      (fun _ : List ℚ => (0 : ℚ))).1 (by decide) _,
   (calibration_search_range_validation [SearchDim.mk 0 2 1]
      (fun l => l.headD 0)).2 (by decide)⟩

/-- Claim C8: the harness reports every case: the report has one entry per
case, entry i is determined by case i alone (a failing case never stops
the evaluation of later cases), all_passed is the conjunction of the
per-case verdicts, and on a batch of one passing and one failing case both
entries are reported and all_passed is false. -/
theorem harness_reports_all_cases (links : List Link) (cases : List TestCase)
    (c1 c2 : TestCase) (h1 : casePasses links c1) (h2 : ¬ casePasses links c2) :
    (validationReport links cases).length = cases.length ∧
    (∀ (i : ℕ) (hi : i < cases.length) (hi2 : i < (validationReport links cases).length),
      (validationReport links cases).get ⟨i, hi2⟩ =
        (caseError links (cases.get ⟨i, hi⟩), casePasses links (cases.get ⟨i, hi⟩))) ∧
    (allPassed links cases ↔ ∀ p ∈ validationReport links cases, p.2) ∧
    validationReport links [c1, c2] =
      [(caseError links c1, casePasses links c1),
       (caseError links c2, casePasses links c2)] ∧
    casePasses links c1 ∧ ¬ allPassed links [c1, c2] := by
  refine ⟨by simp [validationReport], ?_, ?_, by simp [validationReport], h1, ?_⟩
  · intro i hi hi2
    simp [validationReport, List.get_eq_getElem, List.getElem_map]
  · constructor
    · rintro hall p hp
      obtain ⟨c, hc, rfl⟩ := List.mem_map.mp hp
      exact hall c hc
    · intro hall c hc
      exact hall (caseError links c, casePasses links c)
        (List.mem_map_of_mem _ hc)
  · intro hall
    exact h2 (hall c2 (by simp))

/-- Claim C10: the pass boundary of validate_model is inclusive: a case
error exactly equal to the tolerance is a pass and does not clear
all_passed; a case counts as a failure only when its error strictly
exceeds the tolerance. -/
theorem tolerance_boundary_inclusive (links : List Link) (c : TestCase)
    (cases : List TestCase) (h : caseError links c = tolerance) :
    casePasses links c ∧
    (∀ c' : TestCase, ¬ casePasses links c' ↔ tolerance < caseError links c') ∧
    ((∀ c' ∈ cases, caseError links c' ≤ tolerance) → allPassed links cases) := by
  refine ⟨le_of_eq h, ?_, ?_⟩
  · intro c'
    simp [casePasses, not_le]
  · intro hall c' hc'
    exact hall c' hc'

/-- Local transform of joint 1 at joint value 0. -/
lemma dhA_link1_zero :
    dhA link1 0 = !![1, 0, 0, 0.101; 0, 0, -1, 0; 0, 1, 0, 0.45; 0, 0, 0, 1] := by
  ext i j
  fin_cases i <;> fin_cases j <;>
    norm_num [dhA, link1, Real.cos_pi_div_two, Real.sin_pi_div_two]

/-- Local transform of joint 1 at joint value pi/2. -/
lemma dhA_link1_half_pi :
    dhA link1 (π / 2) = !![0, 0, 1, 0; 1, 0, 0, 0.101; 0, 1, 0, 0.45; 0, 0, 0, 1] := by
  ext i j
  fin_cases i <;> fin_cases j <;>
    norm_num [dhA, link1, Real.cos_pi_div_two, Real.sin_pi_div_two]

/-- Local transform of joint 2 at joint value 0 (the pi/2 joint offset
makes the effective angle pi/2). -/
lemma dhA_link2_zero :
    dhA link2 0 = !![0, -1, 0, 0; 1, 0, 0, 0.59; 0, 0, 1, 0; 0, 0, 0, 1] := by
  ext i j
  fin_cases i <;> fin_cases j <;>
    norm_num [dhA, link2, Real.cos_pi_div_two, Real.sin_pi_div_two]

/-- Local transform of joint 3 at joint value 0. -/
lemma dhA_link3_zero :
    dhA link3 0 = !![1, 0, 0, 0.13; 0, 0, -1, 0; 0, 1, 0, 0; 0, 0, 0, 1] := by
  ext i j
  fin_cases i <;> fin_cases j <;>
    norm_num [dhA, link3, Real.cos_pi_div_two, Real.sin_pi_div_two]

/-- Local transform of joint 4 at joint value 0 (negative twist). -/
lemma dhA_link4_zero :
    dhA link4 0 = !![1, 0, 0, 0; 0, 0, 1, 0; 0, -1, 0, 0.674; 0, 0, 0, 1] := by
  ext i j
  fin_cases i <;> fin_cases j <;>
    norm_num [dhA, link4, Real.cos_pi_div_two, Real.sin_pi_div_two]

/-- Local transform of joint 5 at joint value 0. -/
lemma dhA_link5_zero :
    dhA link5 0 = !![1, 0, 0, 0; 0, 0, -1, 0; 0, 1, 0, 0; 0, 0, 0, 1] := by
  ext i j
  fin_cases i <;> fin_cases j <;>
    norm_num [dhA, link5, Real.cos_pi_div_two, Real.sin_pi_div_two]

/-- Local transform of joint 6 at joint value 0. -/
lemma dhA_link6_zero :
    dhA link6 0 = !![1, 0, 0, 0; 0, 1, 0, 0; 0, 0, 1, 0.095; 0, 0, 0, 1] := by
  ext i j
  fin_cases i <;> fin_cases j <;>
    norm_num [dhA, link6]

/-- Numeric product of the joint 5 and joint 6 local transforms. -/
lemma mul_56 :
    (!![1, 0, 0, 0; 0, 0, -1, 0; 0, 1, 0, 0; 0, 0, 0, 1] : Frame) *
      !![1, 0, 0, 0; 0, 1, 0, 0; 0, 0, 1, 0.095; 0, 0, 0, 1] =
    !![1, 0, 0, 0; 0, 0, -1, -0.095; 0, 1, 0, 0; 0, 0, 0, 1] := by
  ext i j
  fin_cases i <;> fin_cases j <;>
    norm_num [Matrix.mul_apply, Fin.sum_univ_four, Matrix.vecHead, Matrix.vecTail]

/-- Numeric product of the joint 4 transform with the joints 5-6 tail. -/
lemma mul_456 :
    (!![1, 0, 0, 0; 0, 0, 1, 0; 0, -1, 0, 0.674; 0, 0, 0, 1] : Frame) *
      !![1, 0, 0, 0; 0, 0, -1, -0.095; 0, 1, 0, 0; 0, 0, 0, 1] =
    !![1, 0, 0, 0; 0, 1, 0, 0; 0, 0, 1, 0.769; 0, 0, 0, 1] := by
  ext i j
  fin_cases i <;> fin_cases j <;>
    norm_num [Matrix.mul_apply, Fin.sum_univ_four, Matrix.vecHead, Matrix.vecTail]

/-- Numeric product of the joint 3 transform with the joints 4-6 tail. -/
lemma mul_3456 :
    (!![1, 0, 0, 0.13; 0, 0, -1, 0; 0, 1, 0, 0; 0, 0, 0, 1] : Frame) *
      !![1, 0, 0, 0; 0, 1, 0, 0; 0, 0, 1, 0.769; 0, 0, 0, 1] =
    !![1, 0, 0, 0.13; 0, 0, -1, -0.769; 0, 1, 0, 0; 0, 0, 0, 1] := by
  ext i j
  fin_cases i <;> fin_cases j <;>
    norm_num [Matrix.mul_apply, Fin.sum_univ_four, Matrix.vecHead, Matrix.vecTail]

/-- Numeric product of the joint 2 transform with the joints 3-6 tail. -/
lemma mul_23456 :
    (!![0, -1, 0, 0; 1, 0, 0, 0.59; 0, 0, 1, 0; 0, 0, 0, 1] : Frame) *
      !![1, 0, 0, 0.13; 0, 0, -1, -0.769; 0, 1, 0, 0; 0, 0, 0, 1] =
    !![0, 0, 1, 0.769; 1, 0, 0, 0.72; 0, 1, 0, 0; 0, 0, 0, 1] := by
  ext i j
  fin_cases i <;> fin_cases j <;>
    norm_num [Matrix.mul_apply, Fin.sum_univ_four, Matrix.vecHead, Matrix.vecTail]

/-- Numeric product of the joint 1 home transform with the joints 2-6
tail: the home end-effector pose. -/
lemma mul_home :
    (!![1, 0, 0, 0.101; 0, 0, -1, 0; 0, 1, 0, 0.45; 0, 0, 0, 1] : Frame) *
      !![0, 0, 1, 0.769; 1, 0, 0, 0.72; 0, 1, 0, 0; 0, 0, 0, 1] =
    !![0, 0, 1, 0.87; 0, -1, 0, 0; 1, 0, 0, 1.17; 0, 0, 0, 1] := by
  ext i j
  fin_cases i <;> fin_cases j <;>
    norm_num [Matrix.mul_apply, Fin.sum_univ_four, Matrix.vecHead, Matrix.vecTail]

/-- Numeric product of the rotated joint 1 transform with the joints 2-6
tail: the base-rotated end-effector pose. -/
lemma mul_rot :
    (!![0, 0, 1, 0; 1, 0, 0, 0.101; 0, 1, 0, 0.45; 0, 0, 0, 1] : Frame) *
      !![0, 0, 1, 0.769; 1, 0, 0, 0.72; 0, 1, 0, 0; 0, 0, 0, 1] =
    !![0, 1, 0, 0; 0, 0, 1, 0.87; 1, 0, 0, 1.17; 0, 0, 0, 1] := by
  ext i j
  fin_cases i <;> fin_cases j <;>
    norm_num [Matrix.mul_apply, Fin.sum_univ_four, Matrix.vecHead, Matrix.vecTail]

/-- The fold of the engine over the six-link chain at home, written as the
ordered product of the six local transforms. -/
lemma fkineT_home_unfold :
    fkineT comauLinks [0, 0, 0, 0, 0, 0] =
      (1 : Frame) * dhA link1 0 * dhA link2 0 * dhA link3 0 * dhA link4 0 *
        dhA link5 0 * dhA link6 0 := rfl

/-- The fold of the engine over the six-link chain with the base joint at
pi/2, written as the ordered product of the six local transforms. -/
lemma fkineT_rot_unfold :
    fkineT comauLinks [π / 2, 0, 0, 0, 0, 0] =
      (1 : Frame) * dhA link1 (π / 2) * dhA link2 0 * dhA link3 0 * dhA link4 0 *
        dhA link5 0 * dhA link6 0 := rfl

/-- The end-effector pose of the configured chain at the home joint
vector, computed in closed form. -/
lemma fkineT_comau_home :
    fkineT comauLinks [0, 0, 0, 0, 0, 0] =
      !![0, 0, 1, 0.87; 0, -1, 0, 0; 1, 0, 0, 1.17; 0, 0, 0, 1] := by
  rw [fkineT_home_unfold, one_mul]
  simp only [mul_assoc]
  rw [dhA_link6_zero, dhA_link5_zero, mul_56, dhA_link4_zero, mul_456,
    dhA_link3_zero, mul_3456, dhA_link2_zero, mul_23456, dhA_link1_zero, mul_home]

/-- The end-effector pose of the configured chain with the base joint at
pi/2, computed in closed form. -/
lemma fkineT_comau_rot :
    fkineT comauLinks [π / 2, 0, 0, 0, 0, 0] =
      !![0, 1, 0, 0; 0, 0, 1, 0.87; 1, 0, 0, 1.17; 0, 0, 0, 1] := by
  rw [fkineT_rot_unfold, one_mul]
  simp only [mul_assoc]
  rw [dhA_link6_zero, dhA_link5_zero, mul_56, dhA_link4_zero, mul_456,
    dhA_link3_zero, mul_3456, dhA_link2_zero, mul_23456, dhA_link1_half_pi, mul_rot]

/-- The checked engine agrees with the total fold on a matching-length
joint vector over the configured chain. -/
lemma fkine_comau_eq_fkineT (q : List ℝ) (h : q.length = comauLinks.length) :
    fkine 1 comauLinks q = .ok (fkineT comauLinks q) := by
  unfold fkine fkineT
  rw [if_pos h]

/-- Claim C3: on the configured chain, evaluation at the home joint vector
yields end-effector translation [0.87, 0, 1.17] and evaluation with the
first joint at pi/2 yields [0, 0.87, 1.17], each within 1mm Euclidean
error of the reference (here the error is exactly zero). -/
theorem comau_reference_positions :
    (∃ T, fkine 1 comauLinks [0, 0, 0, 0, 0, 0] = .ok T ∧
      posError (transl T) ![0.87, 0, 1.17] ≤ 0.001) ∧
    (∃ T, fkine 1 comauLinks [π / 2, 0, 0, 0, 0, 0] = .ok T ∧
      posError (transl T) ![0, 0.87, 1.17] ≤ 0.001) := by
  constructor
  · refine ⟨fkineT comauLinks [0, 0, 0, 0, 0, 0], fkine_comau_eq_fkineT _ rfl, ?_⟩
    rw [fkineT_comau_home]
    norm_num [posError, transl, Real.sqrt_zero,
      show ((0 : Fin 3).castSucc) = (0 : Fin 4) from rfl,
      show ((1 : Fin 3).castSucc) = (1 : Fin 4) from rfl,
      show ((2 : Fin 3).castSucc) = (2 : Fin 4) from rfl]
  · refine ⟨fkineT comauLinks [π / 2, 0, 0, 0, 0, 0], fkine_comau_eq_fkineT _ rfl, ?_⟩
    rw [fkineT_comau_rot]
    norm_num [posError, transl, Real.sqrt_zero,
      show ((0 : Fin 3).castSucc) = (0 : Fin 4) from rfl,
      show ((1 : Fin 3).castSucc) = (1 : Fin 4) from rfl,
      show ((2 : Fin 3).castSucc) = (2 : Fin 4) from rfl]

/-- The home case passes with error exactly zero. -/
lemma caseHome_passes : casePasses comauLinks caseHome := by
  unfold casePasses caseError tolerance caseHome
  rw [show (⟨[0, 0, 0, 0, 0, 0], ![0.87, 0, 1.17]⟩ : TestCase).q = [0, 0, 0, 0, 0, 0]
      from rfl, fkineT_comau_home]
  norm_num [posError, transl, Real.sqrt_zero,
    show ((0 : Fin 3).castSucc) = (0 : Fin 4) from rfl,
    show ((1 : Fin 3).castSucc) = (1 : Fin 4) from rfl,
    show ((2 : Fin 3).castSucc) = (2 : Fin 4) from rfl]

/-- The origin case fails: its error is the full reach of the arm. -/
lemma caseOrigin_fails : ¬ casePasses comauLinks caseOrigin := by
  unfold casePasses caseError tolerance caseOrigin
  rw [show (⟨[0, 0, 0, 0, 0, 0], ![0, 0, 0]⟩ : TestCase).q = [0, 0, 0, 0, 0, 0]
      from rfl, fkineT_comau_home]
  rw [not_le]
  have h1 : posError
      (transl !![0, 0, 1, 0.87; 0, -1, 0, 0; 1, 0, 0, 1.17; 0, 0, 0, 1]) ![0, 0, 0] =
      Real.sqrt 2.1258 := by
    norm_num [posError, transl,
      show ((0 : Fin 3).castSucc) = (0 : Fin 4) from rfl,
      show ((1 : Fin 3).castSucc) = (1 : Fin 4) from rfl,
      show ((2 : Fin 3).castSucc) = (2 : Fin 4) from rfl]
  rw [h1]
  exact (Real.lt_sqrt (by norm_num)).mpr (by norm_num)

/-- The boundary case has error exactly the tolerance. -/
lemma caseBoundary_at_tolerance : caseError comauLinks caseBoundary = tolerance := by
  unfold caseError tolerance caseBoundary
  rw [show (⟨[0, 0, 0, 0, 0, 0], ![0.92, 0, 1.17]⟩ : TestCase).q = [0, 0, 0, 0, 0, 0]
      from rfl, fkineT_comau_home]
  have h1 : posError
      (transl !![0, 0, 1, 0.87; 0, -1, 0, 0; 1, 0, 0, 1.17; 0, 0, 0, 1]) ![0.92, 0, 1.17] =
      Real.sqrt 0.0025 := by
    norm_num [posError, transl,
      show ((0 : Fin 3).castSucc) = (0 : Fin 4) from rfl,
      show ((1 : Fin 3).castSucc) = (1 : Fin 4) from rfl,
      show ((2 : Fin 3).castSucc) = (2 : Fin 4) from rfl]
  rw [h1, show (0.0025 : ℝ) = 0.05 ^ 2 by norm_num, Real.sqrt_sq (by norm_num)]

/-- Spot check of the harness on one passing and one failing case over the
configured chain. -/
theorem harness_reports_all_cases_witness :
    (validationReport comauLinks [caseHome, caseOrigin]).length =
      ([caseHome, caseOrigin] : List TestCase).length ∧
    (∀ (i : ℕ) (hi : i < ([caseHome, caseOrigin] : List TestCase).length)
      (hi2 : i < (validationReport comauLinks [caseHome, caseOrigin]).length),
      (validationReport comauLinks [caseHome, caseOrigin]).get ⟨i, hi2⟩ =
        (caseError comauLinks (([caseHome, caseOrigin] : List TestCase).get ⟨i, hi⟩),
         casePasses comauLinks (([caseHome, caseOrigin] : List TestCase).get ⟨i, hi⟩))) ∧
    (allPassed comauLinks [caseHome, caseOrigin] ↔
      ∀ p ∈ validationReport comauLinks [caseHome, caseOrigin], p.2) ∧
    validationReport comauLinks [caseHome, caseOrigin] =
      [(caseError comauLinks caseHome, casePasses comauLinks caseHome),
       (caseError comauLinks caseOrigin, casePasses comauLinks caseOrigin)] ∧
    casePasses comauLinks caseHome ∧ ¬ allPassed comauLinks [caseHome, caseOrigin] :=
  harness_reports_all_cases comauLinks [caseHome, caseOrigin] caseHome caseOrigin
    caseHome_passes caseOrigin_fails

/-- Spot check of the inclusive boundary at a case whose error is exactly
the 50mm tolerance. -/
theorem tolerance_boundary_inclusive_witness :
    casePasses comauLinks caseBoundary ∧
    (∀ c' : TestCase, ¬ casePasses comauLinks c' ↔ tolerance < caseError comauLinks c') ∧
    ((∀ c' ∈ [caseBoundary], caseError comauLinks c' ≤ tolerance) →
      allPassed comauLinks [caseBoundary]) :=
  tolerance_boundary_inclusive comauLinks caseBoundary [caseBoundary]
    caseBoundary_at_tolerance

end ComauFK
